import Mathlib

/-!
# Verification of the Blackprint market-phase detector

Shallow embedding of `src/bot/market_phases.py` (class `MarketPhaseDetector`).

Modelling conventions:
* Python floats that can be NaN are modelled by `EF := Option ℚ` with `none`
  playing the role of NaN: arithmetic propagates `none`, comparisons with
  `none` are `false` (IEEE NaN comparison semantics; no claim exercises
  infinities or rounding, so exact rationals are used for finite values).
* A pandas Series / one DataFrame column is a `List EF` in time order.
* An operation that can raise (`iloc[-1]` on an empty series) returns an
  `Option`; the `try/except` blocks of the source are modelled by mapping
  the exceptional result back to the fallback value `0.0`.
* `pandas.Series.ewm(span, adjust=False).mean()` is embedded by the exact
  pandas streaming algorithm (state = running average and decayed old
  weight, NaN-aware, `ignore_na=False`), see `ewmGo`.
* `numpy.linalg.lstsq` on the full-rank design matrix `[x, 1]` returns the
  unique least-squares solution, whose slope component is given by the
  normal equations; `lstsqSlope` embeds that closed form.
* The rolling standard deviation used by `detect_unordered_phase` takes a
  real square root, which is irrational; it is embedded parametrically in a
  square-root function `sq : ℚ → ℚ`.  Every theorem below quantifies over
  `sq`, so every statement holds in particular for the true square root;
  no claim depends on the value of that volatility flag (the result of
  `detect_phase` is the same whichever branch `detect_unordered_phase`
  takes, and totality does not depend on `sq`).
-/

namespace Blackprint

/-- A possibly-NaN float value: `none` is NaN, `some q` a finite value. -/
abbrev EF := Option ℚ

/-- NaN-propagating addition. -/
def efAdd : EF → EF → EF
  | some a, some b => some (a + b)
  | _, _ => none

/-- NaN-propagating subtraction. -/
def efSub : EF → EF → EF
  | some a, some b => some (a - b)
  | _, _ => none

/-- NaN-propagating multiplication. -/
def efMul : EF → EF → EF
  | some a, some b => some (a * b)
  | _, _ => none

/-- NaN-propagating absolute value. -/
def efAbs : EF → EF
  | some a => some |a|
  | none => none

/-- `a < b` on floats: any comparison involving NaN is false. -/
def efLt : EF → EF → Bool
  | some a, some b => decide (a < b)
  | _, _ => false

/-- `a <= b` on floats: any comparison involving NaN is false. -/
def efLe : EF → EF → Bool
  | some a, some b => decide (a ≤ b)
  | _, _ => false

/-- `a > b` on floats. -/
def efGt (a b : EF) : Bool := efLt b a

/-- Python `min(a, b)`: returns `b` if `b < a` else `a` (NaN-asymmetric,
exactly the builtin, used by `detect_pullback`). -/
def pyMin (a b : EF) : EF := if efLt b a then b else a

/-- Python `max(a, b)`: returns `b` if `b > a` else `a`. -/
def pyMax (a b : EF) : EF := if efGt b a then b else a

/-- `series.iloc[-1]`: last element, raising (= `none`) on an empty series. -/
def ilocLast (l : List α) : Option α := l.getLast?

/-- `series.iloc[-n:]`: the last `n` elements (fewer if the list is short). -/
def lastN (n : ℕ) (l : List α) : List α := l.drop (l.length - n)

/-- `series.dropna()`: the valid (non-NaN) values, in order. -/
def dropNa (l : List EF) : List ℚ := l.filterMap id

/-- `series.mean()` with pandas default `skipna=True`: NaN iff no valid value. -/
def meanSkipNa (l : List EF) : EF :=
  let v := dropNa l
  if v.isEmpty then none else some (v.sum / v.length)

/-- `series.diff()`: first entry NaN, then NaN-propagating successive
differences `l[i] - l[i-1]`. -/
def pyDiff : List EF → List EF
  | [] => []
  | x :: xs => none :: List.zipWith efSub xs (x :: xs)

/-- pandas `ewm(span=p, ...)` smoothing factor `α = 2 / (p + 1)`. -/
def alphaOfSpan (p : ℕ) : ℚ := 2 / ((p : ℚ) + 1)

/-- One streaming state of the pandas EWM kernel with `adjust=False`,
`ignore_na=False`: `avg` is the current weighted average (NaN before the
first observation), `w` the decayed weight of the old average.  For each
input: a NaN before any observation leaves the state alone; the first
observation seeds the average; a NaN after an observation only decays the
old weight; a later observation gives
`avg ← (w·(1-α)·avg + α·x) / (w·(1-α) + α)` and resets `w` to 1. -/
def ewmGo (α : ℚ) : EF → ℚ → List EF → List EF
  | _, _, [] => []
  | none, w, none :: rest => none :: ewmGo α none w rest
  | none, _, some c :: rest => some c :: ewmGo α (some c) 1 rest
  | some a, w, none :: rest => some a :: ewmGo α (some a) (w * (1 - α)) rest
  | some a, w, some c :: rest =>
      let wd := w * (1 - α)
      let a2 := (wd * a + α * c) / (wd + α)
      some a2 :: ewmGo α (some a2) 1 rest

/-- `series.ewm(span, adjust=False).mean()` as a whole-column function. -/
def ewmMean (α : ℚ) (xs : List EF) : List EF := ewmGo α none 1 xs

/-- The EMA recursion exactly as the spec words it: `ema[0] = close[0]`,
`ema[i] = α·close[i] + (1-α)·ema[i-1]` (seeded by the first close). -/
def emaRecGo (α : ℚ) (prev : ℚ) : List ℚ → List ℚ
  | [] => []
  | c :: cs =>
      let e := α * c + (1 - α) * prev
      e :: emaRecGo α e cs

/-- Spec-side recursive EMA of a fully valid close column. -/
def emaRec (α : ℚ) : List ℚ → List ℚ
  | [] => []
  | c :: cs => c :: emaRecGo α c cs

/-- `np.arange(k)` as rationals. -/
def idxList (k : ℕ) : List ℚ := List.map (fun i : ℕ => (i : ℚ)) (List.range k)

/-- Dot product of two equally long rational columns. -/
def dot (a b : List ℚ) : ℚ := (List.zipWith (· * ·) a b).sum

/-- The slope component of `np.linalg.lstsq(A, y)` for the design matrix
`A = [x, 1]` with `x = 0..k-1`: the least-squares solution of the normal
equations, in closed form `(k·Σxy - Σx·Σy) / (k·Σx² - (Σx)²)`. -/
def lstsqSlope (y : List ℚ) : ℚ :=
  let k : ℚ := y.length
  let x := idxList y.length
  (k * dot x y - x.sum * y.sum) / (k * dot x x - x.sum * x.sum)

/-- Spec-side ordinary-least-squares slope in mean-centered form:
`Σ(xᵢ-x̄)(yᵢ-ȳ) / Σ(xᵢ-x̄)²` over `x = 0..k-1`. -/
def olsSlope (y : List ℚ) : ℚ :=
  let x := idxList y.length
  let xm := x.sum / y.length
  let ym := y.sum / y.length
  dot (x.map (· - xm)) (y.map (· - ym)) / dot (x.map (· - xm)) (x.map (· - xm))

/-- `np.all(y == y[0])`: the whole window holds one repeated value. -/
def allSame : List ℚ → Bool
  | [] => true
  | x :: xs => (x :: xs).all (fun y => decide (y = x))

/-- `MarketPhaseDetector.calculate_slope(series, window=5)`.
Returns `0.0` if the series is shorter than `window` or entirely NaN;
otherwise regresses over the last `window` valid points, returning `0.0`
when fewer than 2 valid points remain or the window is constant.  The
enclosing `try/except` cannot fire in exact arithmetic (the design matrix
is always full rank), so the function is total. -/
def calculate_slope (series : List EF) (window : ℕ := 5) : ℚ :=
  if series.length < window ∨ series.all (fun v => v.isNone) then 0
  else
    let valid := lastN window (dropNa series)
    if valid.length < 2 then 0
    else if allSame valid then 0
    else lstsqSlope valid

/-- `MarketPhaseDetector.calculate_momentum(df)`:
`df['close'].diff().dropna().rolling(5, min_periods=1).mean().iloc[-1]`,
i.e. the mean of the last (up to) 5 valid first differences; the
`iloc[-1]` raise on an empty result is caught and mapped to `0.0`, and a
NaN result is mapped to `0.0` (it cannot occur after `dropna`). -/
def calculate_momentum (close : List EF) : ℚ :=
  let d := dropNa (pyDiff close)
  match lastN 5 d with
  | [] => 0
  | l => l.sum / l.length

/-- Sample variance with `ddof=1` (pandas `std` squares to this); only ever
applied below to full windows of 5 valid values. -/
def sampleVar (v : List ℚ) : ℚ :=
  let m := v.sum / v.length
  (v.map (fun x => (x - m) ^ 2)).sum / (v.length - 1)

/-- `series.rolling(5).std()` (window 5, `min_periods` defaulting to the
window size): position `i` holds the ddof-1 standard deviation of the
window `series[i-4..i]` when those are 5 valid values, else NaN.  The
square root is supplied as the parameter `sq`. -/
def rollingStd5 (sq : ℚ → ℚ) (xs : List EF) : List EF :=
  (List.range xs.length).map fun i =>
    let v := dropNa (lastN 5 (xs.take (i + 1)))
    if v.length < 5 then none else some (sq (sampleVar v))

/-- `class MarketPhase(Enum)`: the four regime labels. -/
inductive MarketPhase where
  | UNORDERED
  | EMERGING
  | TRENDING
  | PULLBACK
deriving DecidableEq, Repr

/-- `class MarketIndex(Enum)`: the reference-index identifiers. -/
inductive MarketIndex where
  | US30 | SPX | NDX | RUT | VIX | FTSE | DAX | NIKKEI
deriving DecidableEq, Repr

/-- The provider ticker string attached to each `MarketIndex` value. -/
def MarketIndex.symbol : MarketIndex → String
  | .US30 => "^DJI"
  | .SPX => "^GSPC"
  | .NDX => "^IXIC"
  | .RUT => "^RUT"
  | .VIX => "^VIX"
  | .FTSE => "^FTSE"
  | .DAX => "^GDAXI"
  | .NIKKEI => "^N225"

/-- `@dataclass PhaseDetectionConfig`. -/
structure PhaseDetectionConfig where
  candle_size : String := "15Min"
  fast_ema : ℕ := 13
  medium_ema : ℕ := 34
  slow_ema : ℕ := 89
  pullback_threshold : ℚ := 382 / 1000
  index : MarketIndex := .US30
deriving DecidableEq, Repr

/-- The mutable fields of a `MarketPhaseDetector` instance.  Only the close
column of the cached index frame is retained (nothing in the source ever
reads any other part of it), and `last_index_update` keeps the timestamp
handed to `update_index_data` (`pd.Timestamp.now()` is an input here). -/
structure MarketPhaseDetector where
  config : PhaseDetectionConfig
  index_data : Option (List EF) := none
  last_index_update : Option ℕ := none
deriving DecidableEq, Repr

/-- `MarketPhaseDetector.set_index`: store the identifier, drop the cache. -/
def set_index (s : MarketPhaseDetector) (index : MarketIndex) : MarketPhaseDetector :=
  { s with config := { s.config with index := index }, index_data := none }

/-- `MarketPhaseDetector.get_index_symbol`. -/
def get_index_symbol (s : MarketPhaseDetector) : String := s.config.index.symbol

/-- `MarketPhaseDetector.update_index_data(data)` at clock reading `now`. -/
def update_index_data (s : MarketPhaseDetector) (data : List EF) (now : ℕ) :
    MarketPhaseDetector :=
  { s with index_data := some data, last_index_update := some now }

/-- One metrics-dictionary value: a float or a string. -/
inductive MVal where
  | num (v : EF)
  | str (s : String)
deriving DecidableEq, Repr

/-- The metrics dictionary, as an insertion-ordered key/value list. -/
abbrev Metrics := List (String × MVal)

/-- The fast-EMA column `df[f'ema_N'] = df['close'].ewm(span=fast_ema, adjust=False).mean()`. -/
def emaFastCol (cfg : PhaseDetectionConfig) (close : List EF) : List EF :=
  ewmMean (alphaOfSpan cfg.fast_ema) close

/-- The medium-EMA column. -/
def emaMediumCol (cfg : PhaseDetectionConfig) (close : List EF) : List EF :=
  ewmMean (alphaOfSpan cfg.medium_ema) close

/-- The slow-EMA column. -/
def emaSlowCol (cfg : PhaseDetectionConfig) (close : List EF) : List EF :=
  ewmMean (alphaOfSpan cfg.slow_ema) close

/-- `MarketPhaseDetector.detect_unordered_phase(df)`.  The source also
computes a momentum value here that it never uses; it is kept as a dead
binding.  The medium EMA's latest value is fetched (and can raise) but is
likewise unused. -/
def detect_unordered_phase (sq : ℚ → ℚ) (cfg : PhaseDetectionConfig)
    (close : List EF) : Option Bool :=
  let fastC := emaFastCol cfg close
  let mediumC := emaMediumCol cfg close
  let slowC := emaSlowCol cfg close
  let fast_slope := calculate_slope fastC
  let medium_slope := calculate_slope mediumC
  let slow_slope := calculate_slope slowC
  let _momentum := calculate_momentum close
  match ilocLast fastC, ilocLast mediumC, ilocLast slowC, ilocLast close with
  | some fast_val, some _medium_val, some slow_val, some price =>
      let slopes_weak := decide (|fast_slope| < 0.05) &&
        decide (|medium_slope| < 0.05) && decide (|slow_slope| < 0.05)
      let emas_compressed :=
        efLt (efAbs (efSub fast_val slow_val)) (efMul (some 0.002) price)
      let price_changes := rollingStd5 sq (pyDiff close)
      let high_volatility := efGt (meanSkipNa (lastN 5 price_changes)) (some 0.8)
      some ((slopes_weak && emas_compressed) || (slopes_weak && high_volatility))
  | _, _, _, _ => none

/-- `MarketPhaseDetector.detect_emerging_phase(df)`. -/
def detect_emerging_phase (cfg : PhaseDetectionConfig) (close : List EF) :
    Option Bool :=
  let fastC := emaFastCol cfg close
  let mediumC := emaMediumCol cfg close
  let slowC := emaSlowCol cfg close
  let fast_slope := calculate_slope fastC
  let medium_slope := calculate_slope mediumC
  let slow_slope := calculate_slope slowC
  let momentum := calculate_momentum close
  match ilocLast fastC, ilocLast mediumC, ilocLast slowC, ilocLast close with
  | some fast, some medium, some slow, some price =>
      let margin := efMul (some 0.001) price
      let accelerating := efGt price (efSub fast margin) &&
        efGt fast (efSub medium margin) && efGt medium (efSub slow margin)
      let slopes_emerging := decide (0.25 < fast_slope) &&
        decide (fast_slope ≤ 0.75) && decide (0.15 < medium_slope) &&
        decide (medium_slope ≤ 0.5) && decide (0 < slow_slope) &&
        decide (slow_slope < 0.4)
      let momentum_emerging := decide (0.2 ≤ momentum) && decide (momentum ≤ 0.8)
      some (accelerating && slopes_emerging && momentum_emerging)
  | _, _, _, _ => none

/-- `MarketPhaseDetector.detect_trending_phase(df)`. -/
def detect_trending_phase (cfg : PhaseDetectionConfig) (close : List EF) :
    Option Bool :=
  let fastC := emaFastCol cfg close
  let mediumC := emaMediumCol cfg close
  let slowC := emaSlowCol cfg close
  let fast_slope := calculate_slope fastC
  let medium_slope := calculate_slope mediumC
  let slow_slope := calculate_slope slowC
  let momentum := calculate_momentum close
  match ilocLast fastC, ilocLast mediumC, ilocLast slowC, ilocLast close with
  | some fast, some medium, some slow, some price =>
      let margin := efMul (some 0.001) price
      let aligned := efGt price (efSub fast margin) &&
        efGt fast (efSub medium margin) && efGt medium (efSub slow margin) &&
        efGt (efSub fast slow) (efMul (some 0.01) price)
      let steady_trend := decide (0.35 ≤ fast_slope) &&
        decide (0.35 ≤ medium_slope) && decide (0.25 ≤ slow_slope)
      let price_momentum := decide (0.25 ≤ momentum)
      some (aligned && steady_trend && price_momentum)
  | _, _, _, _ => none

/-- `MarketPhaseDetector.detect_pullback(df)`. -/
def detect_pullback (cfg : PhaseDetectionConfig) (close : List EF) :
    Option Bool :=
  let fastC := emaFastCol cfg close
  let mediumC := emaMediumCol cfg close
  let slowC := emaSlowCol cfg close
  let fast_slope := calculate_slope fastC
  let medium_slope := calculate_slope mediumC
  let slow_slope := calculate_slope slowC
  let momentum := calculate_momentum close
  match ilocLast fastC, ilocLast mediumC, ilocLast slowC, ilocLast close with
  | some fast, some medium, some slow, some price =>
      let margin := efMul (some 0.001) price
      let price_in_zone := efLe (efSub (pyMin fast medium) margin) price &&
        efLe price (efAdd (pyMax fast medium) margin)
      let prior_trend := efLt slow medium
      let slopes_ok := decide ((-0.1 : ℚ) < fast_slope) &&
        decide ((-0.1 : ℚ) < medium_slope) && decide (0 < slow_slope)
      let momentum_recovering := decide (0 < momentum)
      some (price_in_zone && prior_trend && slopes_ok && momentum_recovering)
  | _, _, _, _ => none

/-- `MarketPhaseDetector.detect_phase(df)`.  The input is `none` when the
frame has no close column, `some close` otherwise (no other column is ever
read).  The predicates are invoked here on the frame enriched by
`calculate_emas`; since the EMA columns are a deterministic pure function
of the close column, that is the same as the predicates recomputing them,
which is how they are embedded.  The last two source branches (explicit
`unordered` detection and the fallback) return identical values, so the
detected-unordered flag is matched but its value does not matter. -/
def detect_phase (sq : ℚ → ℚ) (cfg : PhaseDetectionConfig)
    (df : Option (List EF)) : Option (MarketPhase × Metrics) :=
  match df with
  | none => some (.UNORDERED, [("error", .str "Invalid input data")])
  | some close =>
    if close.isEmpty then some (.UNORDERED, [("error", .str "Invalid input data")])
    else
      let fastC := emaFastCol cfg close
      let mediumC := emaMediumCol cfg close
      let slowC := emaSlowCol cfg close
      match ilocLast fastC, ilocLast mediumC, ilocLast slowC, ilocLast close with
      | some mf, some mm, some msl, some mc =>
        let base : Metrics :=
          [("ema_fast", .num mf), ("ema_medium", .num mm),
           ("ema_slow", .num msl), ("close", .num mc),
           ("fast_slope", .num (some (calculate_slope fastC))),
           ("medium_slope", .num (some (calculate_slope mediumC))),
           ("slow_slope", .num (some (calculate_slope slowC))),
           ("price_momentum", .num (some (calculate_momentum close)))]
        match detect_trending_phase cfg close with
        | none => none
        | some true => some (.TRENDING, base ++ [("detected_phase", .str "trending")])
        | some false =>
          match detect_pullback cfg close with
          | none => none
          | some true => some (.PULLBACK, base ++ [("detected_phase", .str "pullback")])
          | some false =>
            match detect_emerging_phase cfg close with
            | none => none
            | some true => some (.EMERGING, base ++ [("detected_phase", .str "emerging")])
            | some false =>
              match detect_unordered_phase sq cfg close with
              | none => none
              | some _ => some (.UNORDERED, base ++ [("detected_phase", .str "unordered")])
      | _, _, _, _ => none

/-- `detect_phase` as a method acting on the detector state: the body never
assigns to `self`, so the state is returned unchanged. -/
def detect_phaseM (sq : ℚ → ℚ) (s : MarketPhaseDetector)
    (df : Option (List EF)) :
    Option (MarketPhase × Metrics) × MarketPhaseDetector :=
  (detect_phase sq s.config df, s)

/-- `detect_trending_phase` as a method on the detector state (the body
reads only `self.config`). -/
def detect_trending_phaseM (s : MarketPhaseDetector) (close : List EF) :
    Option Bool :=
  detect_trending_phase s.config close

/-- `detect_pullback` as a method on the detector state. -/
def detect_pullbackM (s : MarketPhaseDetector) (close : List EF) : Option Bool :=
  detect_pullback s.config close

/-- A DataFrame as an insertion-ordered list of named columns (only what
`calculate_emas` manipulates). -/
abbrev Frame := List (String × List EF)

/-- `k in df.columns`. -/
def hasCol (df : Frame) (k : String) : Bool := df.any (fun c => c.1 == k)

/-- `df[k]` as a read: `none` models the KeyError on a missing column. -/
def getCol (df : Frame) (k : String) : Option (List EF) :=
  (df.find? (fun c => c.1 == k)).map Prod.snd

/-- `df[k] = v`: overwrite the column in place if the name exists,
otherwise append a new column. -/
def setCol (df : Frame) (k : String) (v : List EF) : Frame :=
  if hasCol df k then df.map (fun c => if c.1 == k then (k, v) else c)
  else df ++ [(k, v)]

/-- The column name `f'ema_{p}'`. -/
def emaColName (p : ℕ) : String := "ema_" ++ toString p

/-- `MarketPhaseDetector.calculate_emas(data)`: works on `data.copy()` (the
argument is not mutated — the embedding is functional anyway), reads the
close column (KeyError = `none` if absent; an `ema_*` name can never equal
`'close'`, so the three reads of `df['close']` in the source all see the
input column and are embedded as one read) and assigns one EMA column per
configured period. -/
def calculate_emas (cfg : PhaseDetectionConfig) (df : Frame) : Option Frame :=
  match getCol df "close" with
  | none => none
  | some close =>
      some (setCol (setCol (setCol df
        (emaColName cfg.fast_ema) (ewmMean (alphaOfSpan cfg.fast_ema) close))
        (emaColName cfg.medium_ema) (ewmMean (alphaOfSpan cfg.medium_ema) close))
        (emaColName cfg.slow_ema) (ewmMean (alphaOfSpan cfg.slow_ema) close))

/-! ## Spec-side definitions

These follow the wording of the specification (not the source); they are
compared against the source-derived definitions above in the refinement
theorems and counterexamples below. -/

/-- Spec-side slope description (§4.2 `computeSlope`): an OLS fit over the
last `window` valid points, returning `0.0` exactly when fewer than 2
valid points exist or the window is constant (a numerical failure cannot
occur in exact arithmetic).  Note: no case for a series shorter than
`window`. -/
def specSlope (series : List EF) (window : ℕ) : ℚ :=
  let valid := lastN window (dropNa series)
  if valid.length < 2 then 0
  else if allSame valid then 0
  else olsSlope valid

/-- Slope of a fully valid column, stated on `List ℚ`: the code's
`calculate_slope` restricted to NaN-free data (used to phrase the
amended emerging-phase characterization over plain rationals). -/
def slopeQ (l : List ℚ) (window : ℕ) : ℚ :=
  if l.length < window then 0
  else
    let valid := lastN window l
    if valid.length < 2 then 0
    else if allSame valid then 0
    else lstsqSlope valid

/-- Momentum of a fully valid close column on `List ℚ`. -/
def momentumQ (cl : List ℚ) : ℚ :=
  let d := List.zipWith (· - ·) cl.tail cl
  match lastN 5 d with
  | [] => 0
  | l => l.sum / l.length

/-- The last element of a valid column, with a default that is never used
on the non-empty columns this is applied to. -/
def lastD (l : List ℚ) : ℚ := l.getLast?.getD 0

/-- Modelled from the spec (§4.1 reference-index corroboration): the
corroboration predicate the spec ascribes to `trending` — the attached
index series' own EMA alignment (fast above medium above slow at the last
bar) must agree with the instrument's bullish signal.  No such check
exists anywhere in the source (the cached `index_data` is never read),
so this definition follows the spec's words; it is used to exhibit that
the source classifies `trending` even when this check fails. -/
def specIndexAgreesTrending (cfg : PhaseDetectionConfig) (idx : List EF) : Bool :=
  efGt (ilocLast (emaFastCol cfg idx) |>.getD none)
      (ilocLast (emaMediumCol cfg idx) |>.getD none) &&
    efGt (ilocLast (emaMediumCol cfg idx) |>.getD none)
      (ilocLast (emaSlowCol cfg idx) |>.getD none)

/-- Spec-side emerging predicate exactly as claimed (fast slope in
`(0.25, 0.35]`, medium in `(0.15, 0.5]`, slow in `(0, 0.4)`, momentum in
`[0.2, 0.8]`, trending alignment within the proportional margin), stated
over a fully valid close column. -/
def specEmergingClaimed (cfg : PhaseDetectionConfig) (cl : List ℚ) : Bool :=
  match cl.getLast? with
  | none => false
  | some price =>
      let f := lastD (emaRec (2 / (cfg.fast_ema + 1)) cl)
      let m := lastD (emaRec (2 / (cfg.medium_ema + 1)) cl)
      let s := lastD (emaRec (2 / (cfg.slow_ema + 1)) cl)
      let margin := 0.001 * price
      let sf := slopeQ (emaRec (2 / (cfg.fast_ema + 1)) cl) 5
      let sm := slopeQ (emaRec (2 / (cfg.medium_ema + 1)) cl) 5
      let ss := slopeQ (emaRec (2 / (cfg.slow_ema + 1)) cl) 5
      let mom := momentumQ cl
      decide (price > f - margin) && decide (f > m - margin) &&
        decide (m > s - margin) &&
        decide (0.25 < sf) && decide (sf ≤ 0.35) &&
        decide (0.15 < sm) && decide (sm ≤ 0.5) &&
        decide (0 < ss) && decide (ss < 0.4) &&
        decide (0.2 ≤ mom) && decide (mom ≤ 0.8)

/-- The amended emerging predicate: identical except that the fast-slope
upper bound is `0.75` (the value in the source), not `0.35`. -/
def specEmergingAmended (cfg : PhaseDetectionConfig) (cl : List ℚ) : Bool :=
  match cl.getLast? with
  | none => false
  | some price =>
      let f := lastD (emaRec (2 / (cfg.fast_ema + 1)) cl)
      let m := lastD (emaRec (2 / (cfg.medium_ema + 1)) cl)
      let s := lastD (emaRec (2 / (cfg.slow_ema + 1)) cl)
      let margin := 0.001 * price
      let sf := slopeQ (emaRec (2 / (cfg.fast_ema + 1)) cl) 5
      let sm := slopeQ (emaRec (2 / (cfg.medium_ema + 1)) cl) 5
      let ss := slopeQ (emaRec (2 / (cfg.slow_ema + 1)) cl) 5
      let mom := momentumQ cl
      decide (price > f - margin) && decide (f > m - margin) &&
        decide (m > s - margin) &&
        decide (0.25 < sf) && decide (sf ≤ 0.75) &&
        decide (0.15 < sm) && decide (sm ≤ 0.5) &&
        decide (0 < ss) && decide (ss < 0.4) &&
        decide (0.2 ≤ mom) && decide (mom ≤ 0.8)

/-! ## Concrete data used by witnesses and counterexamples -/

/-- A small configuration (EMA spans 1/2/3) for which the EMA pipelines
are exactly computable; `PhaseDetectionConfig` places no constraint on the
periods, and every universally quantified theorem below covers it. -/
def wCfg : PhaseDetectionConfig :=
  { fast_ema := 1, medium_ema := 2, slow_ema := 3 }

/-- A rising close column (base 10, increment 2/5) on which both the
trending and the emerging predicate hold under `wCfg`. -/
def wCl : List ℚ := [10, 52 / 5, 54 / 5, 56 / 5, 58 / 5, 12]

/-- `wCl` as a fully valid float column. -/
def wClose : List EF := [some 10, some (52 / 5), some (54 / 5), some (56 / 5), some (58 / 5), some 12]

/-- A strictly falling index series: its EMA alignment is bearish, so the
spec's corroboration predicate rejects it. -/
def wIdxDown : List EF := [some 12, some 11, some 10, some 9, some 8, some 7]

/-! ## Structural lemmas -/

theorem ewmGo_length (α : ℚ) (a : EF) (w : ℚ) (l : List EF) :
    (ewmGo α a w l).length = l.length := by
  induction l generalizing a w with
  | nil => cases a <;> rfl
  | cons x xs ih =>
      cases a <;> cases x <;> simp [ewmGo, ih]

theorem ewmMean_length (α : ℚ) (l : List EF) :
    (ewmMean α l).length = l.length := ewmGo_length α none 1 l

theorem ilocLast_ewm (α : ℚ) (c : EF) (cs : List EF) :
    ∃ v, ilocLast (ewmMean α (c :: cs)) = some v := by
  have hne : ewmMean α (c :: cs) ≠ [] := by
    intro h
    have := ewmMean_length α (c :: cs)
    rw [h] at this
    simp at this
  rw [ilocLast, ← Option.isSome_iff_exists, List.getLast?_isSome]
  exact hne

theorem ilocLast_cons (c : EF) (cs : List EF) :
    ∃ v, ilocLast (c :: cs) = some v := by
  rw [ilocLast, ← Option.isSome_iff_exists, List.getLast?_isSome]
  exact List.cons_ne_nil c cs

/-- On a non-empty close column every phase predicate returns a value (the
`iloc[-1]` reads are the only raising operations, and all columns are
non-empty). -/
theorem detect_trending_phase_isSome (cfg : PhaseDetectionConfig) (c : EF)
    (cs : List EF) : (detect_trending_phase cfg (c :: cs)).isSome = true := by
  obtain ⟨f, hf⟩ := ilocLast_ewm (alphaOfSpan cfg.fast_ema) c cs
  obtain ⟨m, hm⟩ := ilocLast_ewm (alphaOfSpan cfg.medium_ema) c cs
  obtain ⟨s, hs⟩ := ilocLast_ewm (alphaOfSpan cfg.slow_ema) c cs
  obtain ⟨p, hp⟩ := ilocLast_cons c cs
  simp only [detect_trending_phase, emaFastCol, emaMediumCol, emaSlowCol, hf, hm, hs, hp]
  rfl

theorem detect_pullback_isSome (cfg : PhaseDetectionConfig) (c : EF)
    (cs : List EF) : (detect_pullback cfg (c :: cs)).isSome = true := by
  obtain ⟨f, hf⟩ := ilocLast_ewm (alphaOfSpan cfg.fast_ema) c cs
  obtain ⟨m, hm⟩ := ilocLast_ewm (alphaOfSpan cfg.medium_ema) c cs
  obtain ⟨s, hs⟩ := ilocLast_ewm (alphaOfSpan cfg.slow_ema) c cs
  obtain ⟨p, hp⟩ := ilocLast_cons c cs
  simp only [detect_pullback, emaFastCol, emaMediumCol, emaSlowCol, hf, hm, hs, hp]
  rfl

theorem detect_emerging_phase_isSome (cfg : PhaseDetectionConfig) (c : EF)
    (cs : List EF) : (detect_emerging_phase cfg (c :: cs)).isSome = true := by
  obtain ⟨f, hf⟩ := ilocLast_ewm (alphaOfSpan cfg.fast_ema) c cs
  obtain ⟨m, hm⟩ := ilocLast_ewm (alphaOfSpan cfg.medium_ema) c cs
  obtain ⟨s, hs⟩ := ilocLast_ewm (alphaOfSpan cfg.slow_ema) c cs
  obtain ⟨p, hp⟩ := ilocLast_cons c cs
  simp only [detect_emerging_phase, emaFastCol, emaMediumCol, emaSlowCol, hf, hm, hs, hp]
  rfl

theorem detect_unordered_phase_isSome (sq : ℚ → ℚ) (cfg : PhaseDetectionConfig)
    (c : EF) (cs : List EF) :
    (detect_unordered_phase sq cfg (c :: cs)).isSome = true := by
  obtain ⟨f, hf⟩ := ilocLast_ewm (alphaOfSpan cfg.fast_ema) c cs
  obtain ⟨m, hm⟩ := ilocLast_ewm (alphaOfSpan cfg.medium_ema) c cs
  obtain ⟨s, hs⟩ := ilocLast_ewm (alphaOfSpan cfg.slow_ema) c cs
  obtain ⟨p, hp⟩ := ilocLast_cons c cs
  simp only [detect_unordered_phase, emaFastCol, emaMediumCol, emaSlowCol, hf, hm, hs, hp]
  rfl

/-- Any predicate returning a value forces a non-empty close column. -/
theorem ne_nil_of_trending (cfg : PhaseDetectionConfig) (close : List EF)
    (h : detect_trending_phase cfg close = some true) : close ≠ [] := by
  intro hnil
  subst hnil
  exact Option.noConfusion h

/-! ## Evaluation of the concrete witness series -/

theorem wFast_eq : emaFastCol wCfg wClose = wClose := by
  norm_num [emaFastCol, ewmMean, ewmGo, alphaOfSpan, wCfg, wClose]

theorem wMedium_eq : emaMediumCol wCfg wClose =
    [some 10, some (154 / 15), some (478 / 45), some (1486 / 135),
      some (4618 / 405), some (14338 / 1215)] := by
  norm_num [emaMediumCol, ewmMean, ewmGo, alphaOfSpan, wCfg, wClose]

theorem wSlow_eq : emaSlowCol wCfg wClose =
    [some 10, some (51 / 5), some (21 / 2), some (217 / 20),
      some (449 / 40), some (929 / 80)] := by
  norm_num [emaSlowCol, ewmMean, ewmGo, alphaOfSpan, wCfg, wClose]

theorem wIlocF : ilocLast (emaFastCol wCfg wClose) = some (some 12) := by
  rw [wFast_eq]; norm_num [ilocLast, wClose]

theorem wIlocM : ilocLast (emaMediumCol wCfg wClose) = some (some (14338 / 1215)) := by
  rw [wMedium_eq]; norm_num [ilocLast]

theorem wIlocS : ilocLast (emaSlowCol wCfg wClose) = some (some (929 / 80)) := by
  rw [wSlow_eq]; norm_num [ilocLast]

theorem wIlocC : ilocLast wClose = some (some 12) := by
  norm_num [ilocLast, wClose]

theorem wSlopeF : calculate_slope (emaFastCol wCfg wClose) = 2 / 5 := by
  rw [wFast_eq]
  norm_num [calculate_slope, lastN, dropNa, allSame, lstsqSlope, idxList, dot,
    List.filterMap_cons, id, List.range_succ, wClose]

theorem wSlopeM : calculate_slope (emaMediumCol wCfg wClose) = 2338 / 6075 := by
  rw [wMedium_eq]
  norm_num [calculate_slope, lastN, dropNa, allSame, lstsqSlope, idxList, dot,
    List.filterMap_cons, id, List.range_succ]

theorem wSlopeS : calculate_slope (emaSlowCol wCfg wClose) = 71 / 200 := by
  rw [wSlow_eq]
  norm_num [calculate_slope, lastN, dropNa, allSame, lstsqSlope, idxList, dot,
    List.filterMap_cons, id, List.range_succ]

theorem wMom : calculate_momentum wClose = 2 / 5 := by
  norm_num [calculate_momentum, pyDiff, dropNa, lastN, efSub,
    List.filterMap_cons, id, wClose]

/-- Under `wCfg` the witness series satisfies the trending predicate. -/
theorem wTrendingTrue : detect_trending_phase wCfg wClose = some true := by
  simp only [detect_trending_phase, wIlocF, wIlocM, wIlocS, wIlocC,
    wSlopeF, wSlopeM, wSlopeS, wMom]
  norm_num [efGt, efLt, efSub, efMul]

/-- Under `wCfg` the witness series satisfies the emerging predicate. -/
theorem wEmergingTrue : detect_emerging_phase wCfg wClose = some true := by
  simp only [detect_emerging_phase, wIlocF, wIlocM, wIlocS, wIlocC,
    wSlopeF, wSlopeM, wSlopeS, wMom]
  norm_num [efGt, efLt, efSub, efMul]

/-! ## Claim theorems -/

/-- **C1**: `detect_phase` evaluates the phase predicates in the fixed
priority order trending, pullback, emerging, unordered (the fallback),
short-circuiting on the first match — this is the shape of the embedded
`detect_phase` — and consequently any input series on which both the
trending and the emerging predicate are true classifies as trending. -/
theorem claim_C1_trending_priority (sq : ℚ → ℚ) (cfg : PhaseDetectionConfig)
    (close : List EF)
    (ht : detect_trending_phase cfg close = some true)
    (he : detect_emerging_phase cfg close = some true) :
    (detect_phase sq cfg (some close)).map Prod.fst = some MarketPhase.TRENDING := by
  have hne := ne_nil_of_trending cfg close ht
  obtain ⟨c, cs, rfl⟩ : ∃ c cs, close = c :: cs := by
    cases close with
    | nil => exact absurd rfl hne
    | cons c cs => exact ⟨c, cs, rfl⟩
  obtain ⟨f, hf⟩ := ilocLast_ewm (alphaOfSpan cfg.fast_ema) c cs
  obtain ⟨m, hm⟩ := ilocLast_ewm (alphaOfSpan cfg.medium_ema) c cs
  obtain ⟨s, hs⟩ := ilocLast_ewm (alphaOfSpan cfg.slow_ema) c cs
  obtain ⟨p, hp⟩ := ilocLast_cons c cs
  simp only [detect_phase, List.isEmpty_cons, emaFastCol, emaMediumCol, emaSlowCol,
    hf, hm, hs, hp, ht, Bool.false_eq_true, if_false]
  rfl

/-- **C1 witness**: a concrete series (under `wCfg`) satisfying both the
trending and the emerging predicate, classified as trending. -/
theorem claim_C1_witness :
    detect_trending_phase wCfg wClose = some true ∧
    detect_emerging_phase wCfg wClose = some true ∧
    (detect_phase (fun q => q) wCfg (some wClose)).map Prod.fst =
      some MarketPhase.TRENDING :=
  ⟨wTrendingTrue, wEmergingTrue,
    claim_C1_trending_priority (fun q => q) wCfg wClose wTrendingTrue wEmergingTrue⟩

/-- **C2**: `detect_phase` is total — it returns a (phase, metrics) pair
for every well-typed input (no close column, empty close column, columns
containing arbitrary NaN patterns), and on any non-empty close column
(`c :: cs`, including an entirely-NaN one) every phase predicate likewise
returns a value: no helper raises on malformed numeric input
(`calculate_slope` and `calculate_momentum` are total by construction,
returning plain rationals). -/
theorem claim_C2_never_raises (sq : ℚ → ℚ) (cfg : PhaseDetectionConfig)
    (df : Option (List EF)) (c : EF) (cs : List EF) :
    (detect_phase sq cfg df).isSome = true ∧
    (detect_trending_phase cfg (c :: cs)).isSome = true ∧
    (detect_pullback cfg (c :: cs)).isSome = true ∧
    (detect_emerging_phase cfg (c :: cs)).isSome = true ∧
    (detect_unordered_phase sq cfg (c :: cs)).isSome = true := by
  refine ⟨?_, detect_trending_phase_isSome cfg c cs, detect_pullback_isSome cfg c cs,
    detect_emerging_phase_isSome cfg c cs, detect_unordered_phase_isSome sq cfg c cs⟩
  cases df with
  | none => rfl
  | some close =>
    cases close with
    | nil => rfl
    | cons a as =>
      obtain ⟨f, hf⟩ := ilocLast_ewm (alphaOfSpan cfg.fast_ema) a as
      obtain ⟨m, hm⟩ := ilocLast_ewm (alphaOfSpan cfg.medium_ema) a as
      obtain ⟨s, hs⟩ := ilocLast_ewm (alphaOfSpan cfg.slow_ema) a as
      obtain ⟨p, hp⟩ := ilocLast_cons a as
      obtain ⟨tb, htb⟩ := Option.isSome_iff_exists.mp (detect_trending_phase_isSome cfg a as)
      obtain ⟨pb, hpb⟩ := Option.isSome_iff_exists.mp (detect_pullback_isSome cfg a as)
      obtain ⟨eb, heb⟩ := Option.isSome_iff_exists.mp (detect_emerging_phase_isSome cfg a as)
      obtain ⟨ub, hub⟩ := Option.isSome_iff_exists.mp (detect_unordered_phase_isSome sq cfg a as)
      cases tb <;> cases pb <;> cases eb <;> cases ub <;>
        simp only [detect_phase, List.isEmpty_cons, Bool.false_eq_true, if_false,
          emaFastCol, emaMediumCol, emaSlowCol, hf, hm, hs, hp, htb, hpb, heb, hub,
          Option.isSome_some]

/-- **C6**: on an input with no close column (`none`) or an empty series
(`some []`), `detect_phase` returns the unordered phase together with an
error marker in the metrics, as a defined value rather than an
exception. -/
theorem claim_C6_degenerate_result (sq : ℚ → ℚ) (cfg : PhaseDetectionConfig) :
    detect_phase sq cfg none =
      some (MarketPhase.UNORDERED, [("error", MVal.str "Invalid input data")]) ∧
    detect_phase sq cfg (some []) =
      some (MarketPhase.UNORDERED, [("error", MVal.str "Invalid input data")]) :=
  ⟨rfl, rfl⟩

/-- **C10**: on the degenerate branch the metrics mapping has exactly the
single key `error`, and none of the numeric keys that valid inputs
produce. -/
theorem claim_C10_degenerate_metrics_keys (sq : ℚ → ℚ)
    (cfg : PhaseDetectionConfig) (df : Option (List EF))
    (h : df = none ∨ df = some ([] : List EF)) :
    ∃ ms : Metrics, detect_phase sq cfg df = some (MarketPhase.UNORDERED, ms) ∧
      ms.map Prod.fst = ["error"] ∧
      "ema_fast" ∉ ms.map Prod.fst ∧ "ema_medium" ∉ ms.map Prod.fst ∧
      "ema_slow" ∉ ms.map Prod.fst ∧ "close" ∉ ms.map Prod.fst ∧
      "fast_slope" ∉ ms.map Prod.fst ∧ "medium_slope" ∉ ms.map Prod.fst ∧
      "slow_slope" ∉ ms.map Prod.fst ∧ "price_momentum" ∉ ms.map Prod.fst ∧
      "detected_phase" ∉ ms.map Prod.fst := by
  rcases h with rfl | rfl <;>
    exact ⟨[("error", MVal.str "Invalid input data")], rfl, rfl,
      by simp, by simp, by simp, by simp, by simp, by simp, by simp, by simp, by simp⟩

/-- **C10 witness**: the degenerate-metrics theorem applied at the
missing-close-column input. -/
theorem claim_C10_witness :
    ∃ ms : Metrics,
      detect_phase (fun q => q) { } none = some (MarketPhase.UNORDERED, ms) ∧
      ms.map Prod.fst = ["error"] ∧
      "ema_fast" ∉ ms.map Prod.fst ∧ "ema_medium" ∉ ms.map Prod.fst ∧
      "ema_slow" ∉ ms.map Prod.fst ∧ "close" ∉ ms.map Prod.fst ∧
      "fast_slope" ∉ ms.map Prod.fst ∧ "medium_slope" ∉ ms.map Prod.fst ∧
      "slow_slope" ∉ ms.map Prod.fst ∧ "price_momentum" ∉ ms.map Prod.fst ∧
      "detected_phase" ∉ ms.map Prod.fst :=
  claim_C10_degenerate_metrics_keys (fun q => q) { } none (Or.inl rfl)

/-- **C9**: `detect_phase` performs no state mutation (the returned
detector state is the input state), so calling it twice on the same
immutable series yields identical results. -/
theorem claim_C9_idempotent (sq : ℚ → ℚ) (s : MarketPhaseDetector)
    (df : Option (List EF)) :
    (detect_phaseM sq s df).2 = s ∧
    (detect_phaseM sq (detect_phaseM sq s df).2 df).1 = (detect_phaseM sq s df).1 :=
  ⟨rfl, rfl⟩

/-- **C3 (amended)**: the trending and pullback classifications never
consult the attached reference-index series: as methods on the detector
state they agree with the pure predicates for every cached
`index_data`/`last_index_update` whatsoever.  In particular, absence of
index data never blocks a trending or pullback classification (the
corroboration claimed by the spec does not exist in the source). -/
theorem claim_C3_index_never_consulted (cfg : PhaseDetectionConfig)
    (idx : Option (List EF)) (ts : Option ℕ) (close : List EF) :
    detect_trending_phaseM
        { config := cfg, index_data := idx, last_index_update := ts } close =
      detect_trending_phase cfg close ∧
    detect_pullbackM
        { config := cfg, index_data := idx, last_index_update := ts } close =
      detect_pullback cfg close :=
  ⟨rfl, rfl⟩

/-- **C3 counterexample**: attach (via `update_index_data`) an index
series whose own EMA alignment is bearish — the spec-side corroboration
predicate rejects it — and the trending classification still fires: the
claimed "additionally require" check does not exist in the code. -/
theorem claim_C3_counterexample :
    specIndexAgreesTrending wCfg wIdxDown = false ∧
    (update_index_data { config := wCfg } wIdxDown 0).index_data = some wIdxDown ∧
    detect_trending_phaseM (update_index_data { config := wCfg } wIdxDown 0) wClose =
      some true := by
  refine ⟨?_, rfl, wTrendingTrue⟩
  have hf : emaFastCol wCfg wIdxDown = wIdxDown := by
    norm_num [emaFastCol, ewmMean, ewmGo, alphaOfSpan, wCfg, wIdxDown]
  have hm : emaMediumCol wCfg wIdxDown =
      [some 12, some (34 / 3), some (94 / 9), some (256 / 27),
        some (688 / 81), some (1822 / 243)] := by
    norm_num [emaMediumCol, ewmMean, ewmGo, alphaOfSpan, wCfg, wIdxDown]
  simp only [specIndexAgreesTrending, hf, hm]
  norm_num [ilocLast, efGt, efLt, wIdxDown]

/-- **C8 counterexample**: the emerging and trending predicates are not
disjoint — the witness series satisfies both simultaneously, refuting the
claim that emerging's slope and momentum bounds lie below trending's
thresholds (the code's emerging fast-slope bound `0.75` and momentum
bound `0.8` overlap trending's `≥ 0.35` and `≥ 0.25`). -/
theorem claim_C8_counterexample :
    detect_trending_phase wCfg wClose = some true ∧
    detect_emerging_phase wCfg wClose = some true :=
  ⟨wTrendingTrue, wEmergingTrue⟩

/-- **C8 (amended)**: the emerging and trending predicates overlap: there
is a configuration and an input series on which both are true (the
double-match is resolved only by `detect_phase`'s priority order). -/
theorem claim_C8_not_disjoint :
    ∃ cfg : PhaseDetectionConfig, ∃ close : List EF,
      detect_trending_phase cfg close = some true ∧
      detect_emerging_phase cfg close = some true :=
  ⟨wCfg, wClose, wTrendingTrue, wEmergingTrue⟩

/-! ## Least-squares algebra (claim C5) -/

theorem dot_nil : dot [] [] = 0 := rfl

theorem dot_cons (x y : ℚ) (xs ys : List ℚ) :
    dot (x :: xs) (y :: ys) = x * y + dot xs ys := by
  simp [dot]

/-- Expansion of a mean-centered dot product. -/
theorem dot_map_sub (a : List ℚ) (c d : ℚ) :
    ∀ b : List ℚ, a.length = b.length →
      dot (a.map (· - c)) (b.map (· - d)) =
        dot a b - c * b.sum - d * a.sum + (a.length : ℚ) * (c * d) := by
  induction a with
  | nil =>
      intro b h
      obtain rfl : b = [] := List.length_eq_zero.mp h.symm
      simp [dot]
  | cons x xs ih =>
      intro b h
      cases b with
      | nil => simp at h
      | cons y ys =>
          have h2 : xs.length = ys.length := by simpa using h
          simp only [List.map_cons, dot_cons, List.sum_cons, List.length_cons]
          rw [ih ys h2]
          push_cast
          ring

/-- The closed-form normal-equation slope returned by `lstsq` coincides
with the mean-centered ordinary-least-squares slope, for every window. -/
theorem lstsqSlope_eq_olsSlope (y : List ℚ) : lstsqSlope y = olsSlope y := by
  rcases eq_or_ne y.length 0 with h0 | hne
  · obtain rfl : y = [] := List.length_eq_zero.mp h0
    simp [lstsqSlope, olsSlope, idxList, dot]
  · have hk : (y.length : ℚ) ≠ 0 := Nat.cast_ne_zero.mpr hne
    have hlen : (idxList y.length).length = y.length := by
      rw [idxList, List.length_map, List.length_range]
    have hnum :
        dot ((idxList y.length).map (· - (idxList y.length).sum / (y.length : ℚ)))
            (y.map (· - y.sum / (y.length : ℚ))) =
          ((y.length : ℚ) * dot (idxList y.length) y -
            (idxList y.length).sum * y.sum) / (y.length : ℚ) := by
      rw [dot_map_sub _ _ _ y hlen, hlen]
      field_simp
      ring
    have hden :
        dot ((idxList y.length).map (· - (idxList y.length).sum / (y.length : ℚ)))
            ((idxList y.length).map (· - (idxList y.length).sum / (y.length : ℚ))) =
          ((y.length : ℚ) * dot (idxList y.length) (idxList y.length) -
            (idxList y.length).sum * (idxList y.length).sum) / (y.length : ℚ) := by
      rw [dot_map_sub _ _ _ (idxList y.length) rfl, hlen]
      field_simp
      ring
    simp only [lstsqSlope, olsSlope]
    rw [hnum, hden, div_div_div_cancel_right₀]
    exact hk

/-- **C5 (amended)**: `calculate_slope` equals the spec's OLS description
(`specSlope`: centered least-squares over the last `window` valid points,
`0.0` for fewer than 2 valid points or a constant window) **except** that
it additionally returns `0.0` whenever the raw series is shorter than
`window` (or entirely NaN, subsumed by the fewer-than-2-valid case).  It
is total (never raises) by construction. -/
theorem claim_C5_slope_characterization (series : List EF) (window : ℕ) :
    calculate_slope series window =
      if series.length < window ∨ series.all (fun v => v.isNone) then 0
      else specSlope series window := by
  simp only [calculate_slope, specSlope]
  split
  · rfl
  · split
    · rfl
    · split
      · rfl
      · exact lstsqSlope_eq_olsSlope _

/-- **C5 counterexample**: the fully valid 4-point series `1,2,3,4` has at
least 2 valid points, is not constant, and admits no numerical failure,
yet `calculate_slope` returns `0.0` (because `len(series) < window`),
while the claimed OLS fit over its last `window` valid points has slope
`1`. -/
theorem claim_C5_counterexample :
    calculate_slope [some 1, some 2, some 3, some 4] 5 = 0 ∧
    (dropNa [some 1, some 2, some 3, some 4]).length = 4 ∧
    allSame (lastN 5 (dropNa [some 1, some 2, some 3, some 4])) = false ∧
    specSlope [some 1, some 2, some 3, some 4] 5 = 1 ∧
    (0 : ℚ) ≠ 1 := by
  refine ⟨by norm_num [calculate_slope], ?_, ?_, ?_, by norm_num⟩
  · norm_num [dropNa, List.filterMap_cons, id]
  · norm_num [lastN, dropNa, allSame, List.filterMap_cons, id]
  · norm_num [specSlope, lastN, dropNa, allSame, olsSlope, idxList, dot,
      List.filterMap_cons, id, List.range_succ]

/-! ## EWM / spec-recursion bridge (claim C7) -/

/-- On fully valid input with decayed weight 1, the pandas streaming EWM
kernel computes exactly the spec's recursion (each step's denominator
`(1-α) + α` collapses to 1). -/
theorem ewmGo_map_some (α : ℚ) (a : ℚ) (cl : List ℚ) :
    ewmGo α (some a) 1 (cl.map some) = (emaRecGo α a cl).map some := by
  induction cl generalizing a with
  | nil => rfl
  | cons c cs ih =>
      simp only [List.map_cons, ewmGo, emaRecGo]
      have h2 : (1 : ℚ) * (1 - α) + α = 1 := by ring
      have key : ((1 : ℚ) * (1 - α) * a + α * c) / (1 * (1 - α) + α) =
          α * c + (1 - α) * a := by
        rw [h2, div_one]; ring
      rw [key, ih]

theorem ewmMean_map_some (α : ℚ) (cl : List ℚ) :
    ewmMean α (cl.map some) = (emaRec α cl).map some := by
  cases cl with
  | nil => rfl
  | cons c cs =>
      simp only [ewmMean, List.map_cons, ewmGo, emaRec]
      rw [ewmGo_map_some]

theorem hasCol_append_single (df : Frame) (x : String × List EF) (k : String) :
    hasCol (df ++ [x]) k = (hasCol df k || (x.1 == k)) := by
  simp [hasCol]

theorem setCol_append (df : Frame) (k : String) (v : List EF)
    (h : hasCol df k = false) : setCol df k v = df ++ [(k, v)] := by
  simp [setCol, h]

/-- **C7**: for each configured EMA period `p`, `calculate_emas` appends
one new column per period, named `ema_p`, holding exactly the spec's
recursive EMA with `α = 2/(p+1)`: `ema[0] = close[0]` (seeded by the
first close) and `ema[i] = α·close[i] + (1-α)·ema[i-1]`; the input
columns are returned unchanged (no other side effects). -/
theorem claim_C7_calculate_emas (cfg : PhaseDetectionConfig) (df : Frame)
    (cl : List ℚ)
    (hclose : getCol df "close" = some (cl.map some))
    (h1 : hasCol df (emaColName cfg.fast_ema) = false)
    (h2 : hasCol df (emaColName cfg.medium_ema) = false)
    (h3 : hasCol df (emaColName cfg.slow_ema) = false)
    (h12 : emaColName cfg.fast_ema ≠ emaColName cfg.medium_ema)
    (h13 : emaColName cfg.fast_ema ≠ emaColName cfg.slow_ema)
    (h23 : emaColName cfg.medium_ema ≠ emaColName cfg.slow_ema) :
    calculate_emas cfg df =
      some (df ++
        [(emaColName cfg.fast_ema,
            (emaRec (2 / ((cfg.fast_ema : ℚ) + 1)) cl).map some),
         (emaColName cfg.medium_ema,
            (emaRec (2 / ((cfg.medium_ema : ℚ) + 1)) cl).map some),
         (emaColName cfg.slow_ema,
            (emaRec (2 / ((cfg.slow_ema : ℚ) + 1)) cl).map some)]) := by
  have hm2 : hasCol (df ++ [(emaColName cfg.fast_ema,
      (emaRec (2 / ((cfg.fast_ema : ℚ) + 1)) cl).map some)])
      (emaColName cfg.medium_ema) = false := by
    rw [hasCol_append_single, h2]
    simpa using fun h => h12 h
  have hm3 : hasCol ((df ++ [(emaColName cfg.fast_ema,
      (emaRec (2 / ((cfg.fast_ema : ℚ) + 1)) cl).map some)]) ++
      [(emaColName cfg.medium_ema,
        (emaRec (2 / ((cfg.medium_ema : ℚ) + 1)) cl).map some)])
      (emaColName cfg.slow_ema) = false := by
    rw [hasCol_append_single, hasCol_append_single, h3]
    simp only [Bool.false_or, Bool.or_eq_false_iff]
    exact ⟨by simpa using fun h => h13 h, by simpa using fun h => h23 h⟩
  simp only [calculate_emas, hclose, alphaOfSpan]
  rw [ewmMean_map_some, ewmMean_map_some, ewmMean_map_some,
    setCol_append df _ _ h1, setCol_append _ _ _ hm2, setCol_append _ _ _ hm3,
    List.append_assoc, List.append_assoc]
  rfl

/-- **C7 witness**: `calculate_emas` applied to a two-bar frame under
`wCfg`, hypotheses discharged concretely. -/
theorem claim_C7_witness :
    getCol [("close", [some 1, some 2])] "close" = some ([1, 2].map some) ∧
    calculate_emas wCfg [("close", [some 1, some 2])] =
      some ([("close", [some 1, some 2])] ++
        [(emaColName wCfg.fast_ema,
            (emaRec (2 / ((wCfg.fast_ema : ℚ) + 1)) [1, 2]).map some),
         (emaColName wCfg.medium_ema,
            (emaRec (2 / ((wCfg.medium_ema : ℚ) + 1)) [1, 2]).map some),
         (emaColName wCfg.slow_ema,
            (emaRec (2 / ((wCfg.slow_ema : ℚ) + 1)) [1, 2]).map some)]) :=
  ⟨by rfl,
    claim_C7_calculate_emas wCfg [("close", [some 1, some 2])] [1, 2]
      (by rfl) (by rfl) (by rfl) (by rfl)
      (by decide) (by decide) (by decide)⟩

/-! ## Valid-input bridges (claim C4) -/

theorem dropNa_map_some (l : List ℚ) : dropNa (l.map some) = l := by
  induction l with
  | nil => rfl
  | cons x xs ih => simp [dropNa, List.filterMap_cons, ih]

theorem all_isNone_map_some (l : List ℚ) :
    ((l.map some).all fun v => v.isNone) = l.isEmpty := by
  cases l <;> simp

theorem ilocLast_map_some (l : List ℚ) (h : l ≠ []) :
    ilocLast (l.map some) = some (some (lastD l)) := by
  obtain ⟨v, hv⟩ := Option.isSome_iff_exists.mp (List.getLast?_isSome.mpr h)
  rw [ilocLast, List.getLast?_map, hv]
  simp [lastD, hv]

theorem getLast?_eq_lastD (l : List ℚ) (h : l ≠ []) :
    l.getLast? = some (lastD l) := by
  obtain ⟨v, hv⟩ := Option.isSome_iff_exists.mp (List.getLast?_isSome.mpr h)
  rw [hv]
  simp [lastD, hv]

theorem calculate_slope_map_some (l : List ℚ) (w : ℕ) :
    calculate_slope (l.map some) w = slopeQ l w := by
  cases l with
  | nil =>
      simp [calculate_slope, slopeQ, lastN, dropNa]
  | cons c cs =>
      simp only [calculate_slope, slopeQ, List.length_map, all_isNone_map_some,
        List.isEmpty_cons, Bool.false_eq_true, or_false, dropNa_map_some]

theorem zipWith_efSub_map_some (a : List ℚ) :
    ∀ b : List ℚ, List.zipWith efSub (a.map some) (b.map some) =
      (List.zipWith (· - ·) a b).map some := by
  induction a with
  | nil => intro b; simp
  | cons x xs ih =>
      intro b
      cases b with
      | nil => simp
      | cons y ys => simp [efSub, ih]

theorem calculate_momentum_map_some (cl : List ℚ) :
    calculate_momentum (cl.map some) = momentumQ cl := by
  cases cl with
  | nil => rfl
  | cons c cs =>
      simp only [calculate_momentum, momentumQ, List.map_cons, pyDiff, List.tail_cons]
      rw [show (some c :: cs.map some) = (c :: cs).map some from rfl,
        zipWith_efSub_map_some]
      rw [show dropNa (none :: (List.zipWith (· - ·) cs (c :: cs)).map some) =
        dropNa ((List.zipWith (· - ·) cs (c :: cs)).map some) from by
          simp [dropNa, List.filterMap_cons]]
      rw [dropNa_map_some]

/-- **C4 (amended)**: the emerging predicate, on a fully valid close
column, holds exactly when price and the EMAs show the trending alignment
within the proportional margin, the fast EMA slope lies in `(0.25, 0.75]`
(the source's bound — not the claimed `(0.25, 0.35]`), the medium slope in
`(0.15, 0.5]`, the slow slope in `(0, 0.4)`, and momentum lies in
`[0.2, 0.8]`. -/
theorem claim_C4_emerging_characterization (cfg : PhaseDetectionConfig)
    (cl : List ℚ) :
    detect_emerging_phase cfg (cl.map some) = some true ↔
      specEmergingAmended cfg cl = true := by
  cases cl with
  | nil =>
      simp [detect_emerging_phase, specEmergingAmended, emaFastCol, emaMediumCol,
        emaSlowCol, ewmMean, ewmGo, ilocLast]
  | cons c cs =>
      have hne : (c :: cs) ≠ ([] : List ℚ) := List.cons_ne_nil c cs
      have hf : emaFastCol cfg ((c :: cs).map some) =
          (emaRec (2 / ((cfg.fast_ema : ℚ) + 1)) (c :: cs)).map some := by
        rw [emaFastCol, ewmMean_map_some, alphaOfSpan]
      have hm : emaMediumCol cfg ((c :: cs).map some) =
          (emaRec (2 / ((cfg.medium_ema : ℚ) + 1)) (c :: cs)).map some := by
        rw [emaMediumCol, ewmMean_map_some, alphaOfSpan]
      have hs : emaSlowCol cfg ((c :: cs).map some) =
          (emaRec (2 / ((cfg.slow_ema : ℚ) + 1)) (c :: cs)).map some := by
        rw [emaSlowCol, ewmMean_map_some, alphaOfSpan]
      have hrecne : ∀ α : ℚ, emaRec α (c :: cs) ≠ [] := by
        intro α
        simp [emaRec]
      have hif : ilocLast (emaFastCol cfg ((c :: cs).map some)) =
          some (some (lastD (emaRec (2 / ((cfg.fast_ema : ℚ) + 1)) (c :: cs)))) := by
        rw [hf, ilocLast_map_some _ (hrecne _)]
      have him : ilocLast (emaMediumCol cfg ((c :: cs).map some)) =
          some (some (lastD (emaRec (2 / ((cfg.medium_ema : ℚ) + 1)) (c :: cs)))) := by
        rw [hm, ilocLast_map_some _ (hrecne _)]
      have his : ilocLast (emaSlowCol cfg ((c :: cs).map some)) =
          some (some (lastD (emaRec (2 / ((cfg.slow_ema : ℚ) + 1)) (c :: cs)))) := by
        rw [hs, ilocLast_map_some _ (hrecne _)]
      have hic : ilocLast ((c :: cs).map some) = some (some (lastD (c :: cs))) :=
        ilocLast_map_some _ hne
      have hsf : calculate_slope (emaFastCol cfg ((c :: cs).map some)) =
          slopeQ (emaRec (2 / ((cfg.fast_ema : ℚ) + 1)) (c :: cs)) 5 := by
        rw [hf, calculate_slope_map_some]
      have hsm : calculate_slope (emaMediumCol cfg ((c :: cs).map some)) =
          slopeQ (emaRec (2 / ((cfg.medium_ema : ℚ) + 1)) (c :: cs)) 5 := by
        rw [hm, calculate_slope_map_some]
      have hss : calculate_slope (emaSlowCol cfg ((c :: cs).map some)) =
          slopeQ (emaRec (2 / ((cfg.slow_ema : ℚ) + 1)) (c :: cs)) 5 := by
        rw [hs, calculate_slope_map_some]
      have hmom : calculate_momentum ((c :: cs).map some) = momentumQ (c :: cs) :=
        calculate_momentum_map_some _
      have hlast : (c :: cs).getLast? = some (lastD (c :: cs)) :=
        getLast?_eq_lastD _ hne
      simp only [detect_emerging_phase, specEmergingAmended, hif, him, his, hic,
        hsf, hsm, hss, hmom, hlast, efGt, efLt, efSub, efMul, Option.some.injEq]
      simp only [Bool.and_eq_true, decide_eq_true_eq, gt_iff_lt]
      tauto

/-- **C4 counterexample**: on the witness series the source's emerging
predicate is true, while the claimed characterization (fast slope bounded
by `0.35`) is false — the fast slope there is `0.4 ∈ (0.35, 0.75]`. -/
theorem claim_C4_counterexample :
    wClose = wCl.map some ∧
    detect_emerging_phase wCfg (wCl.map some) = some true ∧
    specEmergingClaimed wCfg wCl = false := by
  refine ⟨rfl, ?_, ?_⟩
  · rw [show wCl.map some = wClose from rfl]
    exact wEmergingTrue
  · norm_num [specEmergingClaimed, lastD, emaRec, emaRecGo, slopeQ, momentumQ,
      lastN, allSame, lstsqSlope, idxList, dot, List.range_succ, wCfg, wCl]

end Blackprint
